import Mathlib

/-!
Shallow embedding of the inclusion-list gossip admission, equivocation cache
and gradual-publication logic of the lighthouse repository slice.

Sources embedded:
- consensus/types/src/inclusion_list.rs (data model)
- consensus/types/src/beacon_state/inclusion_list_cache.rs (equivocation cache)
- beacon_node/beacon_chain/src/inclusion_list_verification.rs (admission validator)
- beacon_node/network/src/network_beacon_processor/mod.rs (work dispatch, gradual publisher)

Opaque payload types (transactions, hashes, BLS material) are represented by
natural-number surrogates: the code only compares them structurally, so any
type with decidable equality is faithful.
-/

namespace Lighthouse

/- Machine scalars (u64 slots and validator indices) and opaque payloads
(transactions, 32-byte hashes, BLS signatures and public keys) are all
represented as `Nat`: the embedded code only compares them. -/

/-- `InclusionList` from consensus/types/src/inclusion_list.rs.
`transactions` is a `VariableList`, i.e. an ordered sequence; the type-level
bound is checked dynamically by the admission validator. -/
structure InclusionList where
  slot : Nat
  validator_index : Nat
  inclusion_list_committee_root : Nat
  transactions : List Nat
deriving DecidableEq

/-- `SignedInclusionList` from consensus/types/src/inclusion_list.rs.
Equality is structural over all fields (derived `PartialEq`/`Hash`). -/
structure SignedInclusionList where
  message : InclusionList
  signature : Nat
deriving DecidableEq

/-! ## Equivocation cache (inclusion_list_cache.rs) -/

/-- The `Inner` per-slot entry of `InclusionListCache`. The Rust `HashSet`s
are modelled as `Finset`s. -/
structure Inner where
  inclusion_lists : Finset SignedInclusionList
  inclusion_lists_seen : Finset Nat
  inclusion_list_equivocators : Finset Nat
  inclusion_list_transactions : Finset Nat
deriving DecidableEq

def Inner.emptyEntry : Inner :=
  { inclusion_lists := ∅
    inclusion_lists_seen := ∅
    inclusion_list_equivocators := ∅
    inclusion_list_transactions := ∅ }

/-- The `HashMap<Nat, Inner>` of `InclusionListCache`, modelled as a keyed
lookup function (a key maps to `none` when absent). -/
abbrev InclusionListCache := Nat → Option Inner

def InclusionListCache.emptyCache : InclusionListCache := fun _ => none

/-- `HashMap::insert` / `HashMap::remove` at one key. -/
def setEntry (c : InclusionListCache) (s : Nat) (v : Option Inner) : InclusionListCache :=
  fun s2 => if s2 = s then v else c s2

/-- `InclusionListCache::initialize` (the Rust name is a reserved word here):
insert a fresh empty entry for `slot`, overwriting any prior entry. -/
def initializeCache (c : InclusionListCache) (slot : Nat) : InclusionListCache :=
  setEntry c slot (some Inner.emptyEntry)

/-- `InclusionListCache::clear_cache`: remove the entry for `slot`. -/
def clear_cache (c : InclusionListCache) (slot : Nat) : InclusionListCache :=
  setEntry c slot none

/-- `InclusionListCache::on_inclusion_list`. The four-way branch mirrors the
source: absent entry, known equivocator, conflicting second submission,
identical retransmit, and the final accept path which merges the list's
transactions and records the list and its submitter. -/
def on_inclusion_list (c : InclusionListCache) (il : SignedInclusionList) :
    InclusionListCache :=
  match c il.message.slot with
  | none => c
  | some inner =>
    if il.message.validator_index ∈ inner.inclusion_list_equivocators then
      c
    else if il.message.validator_index ∈ inner.inclusion_lists_seen ∧
        il ∉ inner.inclusion_lists then
      setEntry c il.message.slot (some
        { inner with
          inclusion_list_equivocators :=
            insert il.message.validator_index inner.inclusion_list_equivocators })
    else if il.message.validator_index ∈ inner.inclusion_lists_seen ∧
        il ∈ inner.inclusion_lists then
      c
    else
      setEntry c il.message.slot (some
        { inclusion_lists := insert il inner.inclusion_lists
          inclusion_lists_seen :=
            insert il.message.validator_index inner.inclusion_lists_seen
          inclusion_list_equivocators := inner.inclusion_list_equivocators
          inclusion_list_transactions :=
            inner.inclusion_list_transactions ∪ il.message.transactions.toFinset })

/-- `InclusionListCache::get_inclusion_list_transactions`: `None` when the
slot has no entry, otherwise the per-slot transaction set (the Rust code
materializes the `HashSet` in unspecified order; we return the set). -/
def get_inclusion_list_transactions (c : InclusionListCache) (slot : Nat) :
    Option (Finset Nat) :=
  (c slot).map Inner.inclusion_list_transactions

/-! ## Admission validator (inclusion_list_verification.rs) -/

inductive BeaconChainError where
  | UnableToReadSlot
  | ValidatorIndexUnknown (index : Nat)
deriving DecidableEq

inductive GossipInclusionListError where
  | FutureSlot (message_slot latest_permissible_slot : Nat)
  | PastSlot (message_slot earliest_permissible_slot : Nat)
  | InvalidCommitteeRoot
  | ValidatorNotInCommittee
  | TooManyTransactions
  | InvalidSignature
  | BeaconChainErr (e : BeaconChainError)
deriving DecidableEq

/-- The parts of `BeaconChain`, its slot clock and its spec that
`GossipVerifiedInclusionList::verify` reads. The epoch / fork / domain
derivation feeding `signing_root` is folded into one external function of the
epoch and the message, matching the external-crypto interface. -/
structure ChainEnv where
  now_with_past_tolerance : Option Nat
  now_with_future_tolerance : Option Nat
  max_transactions_per_inclusion_list : Nat
  epoch : Except BeaconChainError Nat
  signing_root : Nat → InclusionList → Nat
  validator_pubkey : Nat → Except BeaconChainError (Option Nat)
  sig_verify : Nat → Nat → Nat → Bool

/-- The checks of `GossipVerifiedInclusionList::verify` after the temporal
window: size bound, then signing-root derivation and pubkey resolution.
The boolean returned by `signature.verify` is bound and discarded exactly as
in the source (`signed_il.signature.verify(&pubkey, message);`). -/
def verify_post_temporal (env : ChainEnv) (signed_il : SignedInclusionList) :
    Except GossipInclusionListError SignedInclusionList :=
  if signed_il.message.transactions.length > env.max_transactions_per_inclusion_list then
    .error .TooManyTransactions
  else
    match env.epoch with
    | .error e => .error (.BeaconChainErr e)
    | .ok epoch =>
      let message := env.signing_root epoch signed_il.message
      match env.validator_pubkey signed_il.message.validator_index with
      | .error e => .error (.BeaconChainErr e)
      | .ok none =>
        .error (.BeaconChainErr
          (.ValidatorIndexUnknown signed_il.message.validator_index))
      | .ok (some pubkey) =>
        let _ := env.sig_verify signed_il.signature pubkey message
        .ok signed_il

/-- `GossipVerifiedInclusionList::verify`: past-slot check, future-slot
check, then the remaining checks. -/
def verify (env : ChainEnv) (signed_il : SignedInclusionList) :
    Except GossipInclusionListError SignedInclusionList :=
  let message_slot := signed_il.message.slot
  match env.now_with_past_tolerance with
  | none => .error (.BeaconChainErr .UnableToReadSlot)
  | some earliest_permissible_slot =>
    if message_slot < earliest_permissible_slot then
      .error (.PastSlot message_slot earliest_permissible_slot)
    else
      match env.now_with_future_tolerance with
      | none => .error (.BeaconChainErr .UnableToReadSlot)
      | some latest_permissible_slot =>
        if message_slot > latest_permissible_slot then
          .error (.FutureSlot message_slot latest_permissible_slot)
        else
          verify_post_temporal env signed_il

/-! ## Operation sequences on the cache -/

/-- The three mutating entry points of `InclusionListCache`. -/
inductive CacheOp where
  | init (slot : Nat)
  | clear (slot : Nat)
  | submit (il : SignedInclusionList)
deriving DecidableEq

def applyOp (c : InclusionListCache) : CacheOp → InclusionListCache
  | .init slot => initializeCache c slot
  | .clear slot => clear_cache c slot
  | .submit il => on_inclusion_list c il

def applyOps (c : InclusionListCache) (ops : List CacheOp) : InclusionListCache :=
  ops.foldl applyOp c

/-! ## Gradual publisher (network_beacon_processor/mod.rs)

The publication loops are modelled by the sequence of batches (publication
rounds) they take from the shuffled artifact list. The recursion is bounded
by a fuel equal to the list length; every round consumes at least one
artifact because the blob batch size starts at 1 and doubles, and the column
batch size is positive (with a zero chunk size the source `chunks(0)` call
panics, so the claims only concern positive batch sizes). -/

def BLOB_PUBLICATION_EXP_FACTOR : Nat := 2

def blobBatchesAux {α : Type} (fuel : Nat) (blobs : List α) (batch_size : Nat) :
    List (List α) :=
  match fuel, blobs with
  | _, [] => []
  | 0, _ => []
  | f + 1, x :: xs =>
    (x :: xs).take batch_size ::
      blobBatchesAux f ((x :: xs).drop batch_size)
        (batch_size * BLOB_PUBLICATION_EXP_FACTOR)

/-- `NetworkBeaconProcessor::publish_blobs_gradually`: the rounds of the
publication loop (`batch_size` starts at `1usize` and doubles each round). -/
def publish_blobs_gradually {α : Type} (blobs : List α) : List (List α) :=
  blobBatchesAux blobs.length blobs 1

def chunksAux {α : Type} (fuel batch_size : Nat) (cols : List α) : List (List α) :=
  match fuel, cols with
  | _, [] => []
  | 0, _ => []
  | f + 1, x :: xs =>
    (x :: xs).take batch_size :: chunksAux f batch_size ((x :: xs).drop batch_size)

/-- `NetworkBeaconProcessor::publish_data_columns_gradually`: the rounds of
the publication loop, i.e. `data_columns_to_publish.chunks(batch_size)` with
`batch_size = number_of_columns / blob_publication_batches`. -/
def publish_data_columns_gradually {α : Type} (cols : List α)
    (number_of_columns blob_publication_batches : Nat) : List (List α) :=
  chunksAux cols.length (number_of_columns / blob_publication_batches) cols

/-! ## Work dispatch (network_beacon_processor/mod.rs) -/

/-- The work variants relevant here; the `RpcBlobs` process closure carries
the block root and the fixed blob sidecar list. -/
inductive Work where
  | RpcBlobs (block_root : Nat) (blobs : List (Option Nat))
deriving DecidableEq

structure BeaconWorkEvent where
  drop_during_sync : Bool
  work : Work
deriving DecidableEq

/-- The bounded `mpsc` channel feeding the beacon processor, seen from the
sender side. -/
structure BoundedChannel where
  capacity : Nat
  queued : List BeaconWorkEvent
deriving DecidableEq

inductive TrySendErr where
  | Full
deriving DecidableEq

/-- `tokio::sync::mpsc::Sender::try_send` on an open channel: enqueue when
below capacity, otherwise fail with `Full` and leave the queue unchanged. -/
def try_send (ch : BoundedChannel) (event : BeaconWorkEvent) :
    BoundedChannel × Except TrySendErr Unit :=
  if ch.queued.length < ch.capacity then
    ({ ch with queued := ch.queued ++ [event] }, .ok ())
  else
    (ch, .error .Full)

/-- `NetworkBeaconProcessor::send_rpc_blobs`: count the present blobs; when
zero, return `Ok(())` without building or enqueueing a work event; otherwise
enqueue an `RpcBlobs` work event with `drop_during_sync = false`. -/
def send_rpc_blobs (ch : BoundedChannel) (block_root : Nat)
    (blobs : List (Option Nat)) :
    BoundedChannel × Except TrySendErr Unit :=
  let blob_count := (blobs.filter Option.isSome).length
  if blob_count = 0 then
    (ch, .ok ())
  else
    try_send ch { drop_during_sync := false, work := .RpcBlobs block_root blobs }

/-! ## Basic lemmas on the cache map and the branches of `on_inclusion_list` -/

theorem setEntry_same (c : InclusionListCache) (s : Nat) (v : Option Inner) :
    setEntry c s v s = v := by
  simp [setEntry]

theorem setEntry_other (c : InclusionListCache) (s s2 : Nat) (v : Option Inner)
    (h : s2 ≠ s) : setEntry c s v s2 = c s2 := by
  simp [setEntry, h]

theorem on_inclusion_list_absent (c : InclusionListCache) (il : SignedInclusionList)
    (h : c il.message.slot = none) : on_inclusion_list c il = c := by
  unfold on_inclusion_list
  rw [h]

theorem on_inclusion_list_equivocator_drop (c : InclusionListCache)
    (il : SignedInclusionList) (inner : Inner)
    (h : c il.message.slot = some inner)
    (hv : il.message.validator_index ∈ inner.inclusion_list_equivocators) :
    on_inclusion_list c il = c := by
  unfold on_inclusion_list
  rw [h]
  simp [hv]

theorem on_inclusion_list_conflict (c : InclusionListCache)
    (il : SignedInclusionList) (inner : Inner)
    (h : c il.message.slot = some inner)
    (hv : il.message.validator_index ∉ inner.inclusion_list_equivocators)
    (hs : il.message.validator_index ∈ inner.inclusion_lists_seen)
    (hm : il ∉ inner.inclusion_lists) :
    on_inclusion_list c il = setEntry c il.message.slot (some
      { inner with
        inclusion_list_equivocators :=
          insert il.message.validator_index inner.inclusion_list_equivocators }) := by
  unfold on_inclusion_list
  rw [h]
  simp [hv, hs, hm]

theorem on_inclusion_list_retransmit (c : InclusionListCache)
    (il : SignedInclusionList) (inner : Inner)
    (h : c il.message.slot = some inner)
    (hv : il.message.validator_index ∉ inner.inclusion_list_equivocators)
    (hs : il.message.validator_index ∈ inner.inclusion_lists_seen)
    (hm : il ∈ inner.inclusion_lists) :
    on_inclusion_list c il = c := by
  unfold on_inclusion_list
  rw [h]
  simp [hv, hs, hm]

theorem on_inclusion_list_accept (c : InclusionListCache)
    (il : SignedInclusionList) (inner : Inner)
    (h : c il.message.slot = some inner)
    (hv : il.message.validator_index ∉ inner.inclusion_list_equivocators)
    (hs : il.message.validator_index ∉ inner.inclusion_lists_seen) :
    on_inclusion_list c il = setEntry c il.message.slot (some
      { inclusion_lists := insert il inner.inclusion_lists
        inclusion_lists_seen :=
          insert il.message.validator_index inner.inclusion_lists_seen
        inclusion_list_equivocators := inner.inclusion_list_equivocators
        inclusion_list_transactions :=
          inner.inclusion_list_transactions ∪ il.message.transactions.toFinset }) := by
  unfold on_inclusion_list
  rw [h]
  simp [hv, hs]

theorem on_inclusion_list_other_slot (c : InclusionListCache)
    (il : SignedInclusionList) (s : Nat) (h : s ≠ il.message.slot) :
    on_inclusion_list c il s = c s := by
  unfold on_inclusion_list
  cases hc : c il.message.slot with
  | none => rfl
  | some inner =>
    by_cases h1 : il.message.validator_index ∈ inner.inclusion_list_equivocators
    · simp [h1]
    · by_cases h2 : il.message.validator_index ∈ inner.inclusion_lists_seen ∧
          il ∉ inner.inclusion_lists
      · simp [h1, h2, setEntry, h]
      · by_cases h3 : il.message.validator_index ∈ inner.inclusion_lists_seen ∧
            il ∈ inner.inclusion_lists
        · simp [h1, h2, h3]
        · simp [h1, h2, h3, setEntry, h]

/-- Claim C6: for every cache state and every signed inclusion list,
submitting the identical list twice in succession leaves the cache after the
second call identical to the cache after the first call: no transaction is
duplicated and the identical retransmit never flags the submitter as an
equivocator. -/
theorem on_inclusion_list_idempotent (c : InclusionListCache)
    (il : SignedInclusionList) :
    on_inclusion_list (on_inclusion_list c il) il = on_inclusion_list c il := by
  cases hc : c il.message.slot with
  | none =>
    have e := on_inclusion_list_absent c il hc
    rw [e]
    exact e
  | some inner =>
    by_cases h1 : il.message.validator_index ∈ inner.inclusion_list_equivocators
    · have e := on_inclusion_list_equivocator_drop c il inner hc h1
      rw [e]
      exact e
    · by_cases h2 : il.message.validator_index ∈ inner.inclusion_lists_seen ∧
          il ∉ inner.inclusion_lists
      · have e := on_inclusion_list_conflict c il inner hc h1 h2.1 h2.2
        rw [e]
        exact on_inclusion_list_equivocator_drop _ il _
          (setEntry_same c il.message.slot _) (Finset.mem_insert_self _ _)
      · by_cases h3 : il.message.validator_index ∈ inner.inclusion_lists_seen ∧
            il ∈ inner.inclusion_lists
        · have e := on_inclusion_list_retransmit c il inner hc h1 h3.1 h3.2
          rw [e]
          exact e
        · have hseen : il.message.validator_index ∉ inner.inclusion_lists_seen := by
            intro hv
            by_cases hm : il ∈ inner.inclusion_lists
            · exact h3 ⟨hv, hm⟩
            · exact h2 ⟨hv, hm⟩
          have e := on_inclusion_list_accept c il inner hc h1 hseen
          rw [e]
          exact on_inclusion_list_retransmit _ il _
            (setEntry_same c il.message.slot _) h1
            (Finset.mem_insert_self _ _) (Finset.mem_insert_self _ _)

/-- Claim C8: when a slot has no cache entry (never initialized, or cleared
again after initialization), every submission for that slot leaves the whole
cache unchanged and the transaction query for that slot returns `none`. -/
theorem cache_no_entry_noop (c : InclusionListCache) (il : SignedInclusionList)
    (h : c il.message.slot = none) :
    on_inclusion_list c il = c
  ∧ get_inclusion_list_transactions c il.message.slot = none
  ∧ ∀ c0 : InclusionListCache,
      clear_cache (initializeCache c0 il.message.slot) il.message.slot
        il.message.slot = none := by
  refine ⟨on_inclusion_list_absent c il h, ?_, ?_⟩
  · simp [get_inclusion_list_transactions, h]
  · intro c0
    simp [clear_cache, initializeCache, setEntry]

/-- Claim C2: with an active entry whose `seen` set already holds the
submitter and with a structurally different list (not in `accepted`), a
second submission from a not-yet-flagged validator only inserts the
submitter into `equivocators` — `accepted`, `seen` and the transaction set
are untouched — and any submission from a flagged validator for its slot
leaves the cache unchanged. -/
theorem on_inclusion_list_flags_equivocator (c : InclusionListCache)
    (il : SignedInclusionList) (inner : Inner)
    (h : c il.message.slot = some inner)
    (hv : il.message.validator_index ∉ inner.inclusion_list_equivocators)
    (hs : il.message.validator_index ∈ inner.inclusion_lists_seen)
    (hm : il ∉ inner.inclusion_lists) :
    on_inclusion_list c il il.message.slot = some
      { inner with
        inclusion_list_equivocators :=
          insert il.message.validator_index inner.inclusion_list_equivocators }
  ∧ ∀ (c2 : InclusionListCache) (inner2 : Inner) (il2 : SignedInclusionList),
      c2 il2.message.slot = some inner2 →
      il2.message.validator_index ∈ inner2.inclusion_list_equivocators →
      on_inclusion_list c2 il2 = c2 := by
  constructor
  · rw [on_inclusion_list_conflict c il inner h hv hs hm]
    exact setEntry_same c il.message.slot _
  · intro c2 inner2 il2 h2 hv2
    exact on_inclusion_list_equivocator_drop c2 il2 inner2 h2 hv2

/-! Concrete fixtures used by the witnesses. -/

def ilA : SignedInclusionList := ⟨⟨7, 3, 0, [1, 2]⟩, 10⟩

def ilB : SignedInclusionList := ⟨⟨7, 3, 0, [3]⟩, 11⟩

def innerW : Inner :=
  { inclusion_lists := {ilA}
    inclusion_lists_seen := {3}
    inclusion_list_equivocators := ∅
    inclusion_list_transactions := {1, 2} }

def cW : InclusionListCache := setEntry InclusionListCache.emptyCache 7 (some innerW)

/-- Witness for C2: validator 3 already submitted `ilA` at slot 7; the
different list `ilB` flags it, and resubmitting `ilA` afterwards is a
no-op. -/
theorem on_inclusion_list_flags_equivocator_witness :
    on_inclusion_list cW ilB ilB.message.slot = some
      { innerW with
        inclusion_list_equivocators :=
          insert ilB.message.validator_index innerW.inclusion_list_equivocators }
  ∧ on_inclusion_list (on_inclusion_list cW ilB) ilA = on_inclusion_list cW ilB := by
  have H := on_inclusion_list_flags_equivocator cW ilB innerW rfl
    (by decide) (by decide) (by decide)
  exact ⟨H.1, H.2 (on_inclusion_list cW ilB) _ ilA H.1 (by decide)⟩

/-- Witness for C8: the empty cache drops the submission `ilA` and reports
no transactions for its slot. -/
theorem cache_no_entry_noop_witness :
    on_inclusion_list InclusionListCache.emptyCache ilA = InclusionListCache.emptyCache
  ∧ get_inclusion_list_transactions InclusionListCache.emptyCache
      ilA.message.slot = none
  ∧ ∀ c0 : InclusionListCache,
      clear_cache (initializeCache c0 ilA.message.slot) ilA.message.slot
        ilA.message.slot = none :=
  cache_no_entry_noop InclusionListCache.emptyCache ilA rfl

/-! ## Equivocator invariant (C5) -/

/-- Every entry of the cache keeps its equivocators inside its seen set. -/
def EquivInv (c : InclusionListCache) : Prop :=
  ∀ s inner, c s = some inner →
    inner.inclusion_list_equivocators ⊆ inner.inclusion_lists_seen

theorem equivInv_step (c : InclusionListCache) (op : CacheOp) (h : EquivInv c) :
    EquivInv (applyOp c op) := by
  cases op with
  | init slot =>
    intro s inner hs
    by_cases he : s = slot
    · subst he
      rw [applyOp, initializeCache, setEntry_same] at hs
      cases hs
      intro x hx
      exact absurd hx (Finset.not_mem_empty x)
    · rw [applyOp, initializeCache, setEntry_other _ _ _ _ he] at hs
      exact h s inner hs
  | clear slot =>
    intro s inner hs
    by_cases he : s = slot
    · subst he
      rw [applyOp, clear_cache, setEntry_same] at hs
      cases hs
    · rw [applyOp, clear_cache, setEntry_other _ _ _ _ he] at hs
      exact h s inner hs
  | submit il =>
    intro s inner2 hs
    by_cases he : s = il.message.slot
    · subst he
      cases hc : c il.message.slot with
      | none =>
        rw [applyOp, on_inclusion_list_absent c il hc] at hs
        exact h _ inner2 hs
      | some inner =>
        by_cases h1 : il.message.validator_index ∈ inner.inclusion_list_equivocators
        · rw [applyOp, on_inclusion_list_equivocator_drop c il inner hc h1] at hs
          exact h _ inner2 hs
        · by_cases h2 : il.message.validator_index ∈ inner.inclusion_lists_seen ∧
              il ∉ inner.inclusion_lists
          · rw [applyOp, on_inclusion_list_conflict c il inner hc h1 h2.1 h2.2,
              setEntry_same] at hs
            cases hs
            exact Finset.insert_subset h2.1 (h _ inner hc)
          · by_cases h3 : il.message.validator_index ∈ inner.inclusion_lists_seen ∧
                il ∈ inner.inclusion_lists
            · rw [applyOp, on_inclusion_list_retransmit c il inner hc h1 h3.1 h3.2] at hs
              exact h _ inner2 hs
            · have hseen : il.message.validator_index ∉ inner.inclusion_lists_seen := by
                intro hmem
                by_cases hl : il ∈ inner.inclusion_lists
                · exact h3 ⟨hmem, hl⟩
                · exact h2 ⟨hmem, hl⟩
              rw [applyOp, on_inclusion_list_accept c il inner hc h1 hseen,
                setEntry_same] at hs
              cases hs
              exact (h _ inner hc).trans (Finset.subset_insert _ _)
    · rw [applyOp, on_inclusion_list_other_slot c il s he] at hs
      exact h s inner2 hs

theorem equivInv_fold (ops : List CacheOp) :
    ∀ c : InclusionListCache, EquivInv c → EquivInv (applyOps c ops) := by
  induction ops with
  | nil => intro c h; exact h
  | cons op rest ih =>
    intro c h
    exact ih (applyOp c op) (equivInv_step c op h)

theorem equiv_monotone_submit (c : InclusionListCache) (il : SignedInclusionList)
    (s : Nat) (inner inner2 : Inner) (h : c s = some inner)
    (h2 : on_inclusion_list c il s = some inner2) :
    inner.inclusion_list_equivocators ⊆ inner2.inclusion_list_equivocators := by
  by_cases he : s = il.message.slot
  · subst he
    by_cases h1 : il.message.validator_index ∈ inner.inclusion_list_equivocators
    · rw [on_inclusion_list_equivocator_drop c il inner h h1, h] at h2
      cases h2
      exact Finset.Subset.refl _
    · by_cases hb : il.message.validator_index ∈ inner.inclusion_lists_seen ∧
          il ∉ inner.inclusion_lists
      · rw [on_inclusion_list_conflict c il inner h h1 hb.1 hb.2, setEntry_same] at h2
        cases h2
        exact Finset.subset_insert _ _
      · by_cases h3 : il.message.validator_index ∈ inner.inclusion_lists_seen ∧
            il ∈ inner.inclusion_lists
        · rw [on_inclusion_list_retransmit c il inner h h1 h3.1 h3.2, h] at h2
          cases h2
          exact Finset.Subset.refl _
        · have hseen : il.message.validator_index ∉ inner.inclusion_lists_seen := by
            intro hmem
            by_cases hl : il ∈ inner.inclusion_lists
            · exact h3 ⟨hmem, hl⟩
            · exact hb ⟨hmem, hl⟩
          rw [on_inclusion_list_accept c il inner h h1 hseen, setEntry_same] at h2
          cases h2
          exact Finset.Subset.refl _
  · rw [on_inclusion_list_other_slot c il s he, h] at h2
    cases h2
    exact Finset.Subset.refl _

/-- Claim C5: along every sequence of `initialize`, `on_inclusion_list` and
`clear_cache` operations from the empty cache, every live entry satisfies
`equivocators ⊆ seen`; and an operation that is neither a re-initialize nor
a clear of a slot never removes an equivocator recorded for that slot. -/
theorem equivocators_subset_seen_and_permanent :
    (∀ (ops : List CacheOp) (s : Nat) (inner : Inner),
        applyOps InclusionListCache.emptyCache ops s = some inner →
        inner.inclusion_list_equivocators ⊆ inner.inclusion_lists_seen)
  ∧ (∀ (c : InclusionListCache) (op : CacheOp) (s : Nat) (inner inner2 : Inner),
        op ≠ CacheOp.init s → op ≠ CacheOp.clear s →
        c s = some inner → applyOp c op s = some inner2 →
        inner.inclusion_list_equivocators ⊆ inner2.inclusion_list_equivocators) := by
  constructor
  · intro ops s inner h
    have hbase : EquivInv InclusionListCache.emptyCache := by
      intro s2 inner2 h2
      cases h2
    exact equivInv_fold ops InclusionListCache.emptyCache hbase s inner h
  · intro c op s inner inner2 hni hnc h h2
    cases op with
    | init slot =>
      have hne : s ≠ slot := fun he => hni (by rw [he])
      rw [applyOp, initializeCache, setEntry_other _ _ _ _ hne, h] at h2
      cases h2
      exact Finset.Subset.refl _
    | clear slot =>
      have hne : s ≠ slot := fun he => hnc (by rw [he])
      rw [applyOp, clear_cache, setEntry_other _ _ _ _ hne, h] at h2
      cases h2
      exact Finset.Subset.refl _
    | submit il =>
      exact equiv_monotone_submit c il s inner inner2 h h2

/-- The slot-7 entry after accepting `ilA`, and after `ilB` then flags
validator 3. -/
def innerAccepted : Inner :=
  { inclusion_lists := {ilA}
    inclusion_lists_seen := {3}
    inclusion_list_equivocators := ∅
    inclusion_list_transactions := {1, 2} }

def innerFlagged : Inner :=
  { inclusion_lists := {ilA}
    inclusion_lists_seen := {3}
    inclusion_list_equivocators := {3}
    inclusion_list_transactions := {1, 2} }

/-- Witness for C5: a run that initializes slot 7, accepts `ilA` and flags
validator 3 via `ilB`, checked against both conjuncts. -/
theorem equivocators_subset_seen_and_permanent_witness :
    innerFlagged.inclusion_list_equivocators ⊆ innerFlagged.inclusion_lists_seen
  ∧ innerAccepted.inclusion_list_equivocators ⊆
      innerFlagged.inclusion_list_equivocators :=
  ⟨equivocators_subset_seen_and_permanent.1
      [CacheOp.init 7, CacheOp.submit ilA, CacheOp.submit ilB] 7 innerFlagged
      (by decide),
    equivocators_subset_seen_and_permanent.2
      (applyOps InclusionListCache.emptyCache [CacheOp.init 7, CacheOp.submit ilA])
      (CacheOp.submit ilB) 7 innerAccepted innerFlagged
      (by decide) (by decide) (by decide) (by decide)⟩

/-! ## Nat union (C3) -/

/-- The set union of the transactions of all accepted lists of an entry. -/
def txUnion (inner : Inner) : Finset Nat :=
  inner.inclusion_lists.biUnion fun l => l.message.transactions.toFinset

theorem txInv_step (c : InclusionListCache) (il : SignedInclusionList) (s : Nat)
    (inner : Inner) (h : c s = some inner)
    (hinv : inner.inclusion_list_transactions = txUnion inner) :
    ∃ inner2, on_inclusion_list c il s = some inner2 ∧
      inner2.inclusion_list_transactions = txUnion inner2 := by
  by_cases he : s = il.message.slot
  · subst he
    by_cases h1 : il.message.validator_index ∈ inner.inclusion_list_equivocators
    · exact ⟨inner, by rw [on_inclusion_list_equivocator_drop c il inner h h1]; exact h,
        hinv⟩
    · by_cases hb : il.message.validator_index ∈ inner.inclusion_lists_seen ∧
          il ∉ inner.inclusion_lists
      · refine ⟨_, by rw [on_inclusion_list_conflict c il inner h h1 hb.1 hb.2,
          setEntry_same], ?_⟩
        exact hinv
      · by_cases h3 : il.message.validator_index ∈ inner.inclusion_lists_seen ∧
            il ∈ inner.inclusion_lists
        · exact ⟨inner,
            by rw [on_inclusion_list_retransmit c il inner h h1 h3.1 h3.2]; exact h,
            hinv⟩
        · have hseen : il.message.validator_index ∉ inner.inclusion_lists_seen := by
            intro hmem
            by_cases hl : il ∈ inner.inclusion_lists
            · exact h3 ⟨hmem, hl⟩
            · exact hb ⟨hmem, hl⟩
          refine ⟨_, by rw [on_inclusion_list_accept c il inner h h1 hseen,
            setEntry_same], ?_⟩
          show inner.inclusion_list_transactions ∪ il.message.transactions.toFinset =
            txUnion { inclusion_lists := insert il inner.inclusion_lists
                      inclusion_lists_seen := insert il.message.validator_index
                        inner.inclusion_lists_seen
                      inclusion_list_equivocators := inner.inclusion_list_equivocators
                      inclusion_list_transactions := inner.inclusion_list_transactions ∪
                        il.message.transactions.toFinset }
          rw [txUnion]
          show _ = (insert il inner.inclusion_lists).biUnion
            fun l => l.message.transactions.toFinset
          rw [Finset.biUnion_insert, hinv, txUnion, Finset.union_comm]
  · exact ⟨inner, by rw [on_inclusion_list_other_slot c il s he]; exact h, hinv⟩

theorem txInv_fold (s : Nat) (ils : List SignedInclusionList) :
    ∀ (c : InclusionListCache) (inner : Inner), c s = some inner →
      inner.inclusion_list_transactions = txUnion inner →
      ∃ inner2, List.foldl on_inclusion_list c ils s = some inner2 ∧
        inner2.inclusion_list_transactions = txUnion inner2 := by
  induction ils with
  | nil => intro c inner h hinv; exact ⟨inner, h, hinv⟩
  | cons il rest ih =>
    intro c inner h hinv
    obtain ⟨inner2, h2, hinv2⟩ := txInv_step c il s inner h hinv
    exact ih (on_inclusion_list c il) inner2 h2 hinv2

/-- Claim C3: starting from a freshly initialized (`Active`) entry, after any
sequence of submissions the transaction query for the slot returns `some` of
exactly the set union of the transactions of the accepted lists — submissions
discarded by equivocation detection contribute nothing. -/
theorem get_inclusion_list_transactions_is_union (c0 : InclusionListCache)
    (s : Nat) (ils : List SignedInclusionList) :
    ∃ inner, List.foldl on_inclusion_list (initializeCache c0 s) ils s = some inner ∧
      get_inclusion_list_transactions
        (List.foldl on_inclusion_list (initializeCache c0 s) ils) s
        = some (txUnion inner) := by
  have hstart : initializeCache c0 s s = some Inner.emptyEntry := by
    rw [initializeCache, setEntry_same]
  have hinv0 : Inner.emptyEntry.inclusion_list_transactions = txUnion Inner.emptyEntry := by
    rw [txUnion]
    rfl
  obtain ⟨inner2, h2, hinv2⟩ := txInv_fold s ils (initializeCache c0 s)
    Inner.emptyEntry hstart hinv0
  refine ⟨inner2, h2, ?_⟩
  rw [get_inclusion_list_transactions, h2]
  show some inner2.inclusion_list_transactions = some (txUnion inner2)
  rw [hinv2]

/-! ## Admission validator lemmas -/

/-- With a readable clock, `verify` is the temporal guard followed by the
remaining checks. -/
theorem verify_eval (env : ChainEnv) (il : SignedInclusionList) (e l : Nat)
    (hp : env.now_with_past_tolerance = some e)
    (hf : env.now_with_future_tolerance = some l) :
    verify env il =
      if il.message.slot < e then .error (.PastSlot il.message.slot e)
      else if il.message.slot > l then .error (.FutureSlot il.message.slot l)
      else verify_post_temporal env il := by
  unfold verify
  rw [hp, hf]

/-- The checks after the temporal window produce only these outcomes. -/
theorem verify_post_temporal_shape (env : ChainEnv) (il : SignedInclusionList) :
    verify_post_temporal env il = .ok il ∨
    verify_post_temporal env il = .error .TooManyTransactions ∨
    ∃ e2, verify_post_temporal env il = .error (.BeaconChainErr e2) := by
  unfold verify_post_temporal
  split
  · right; left; rfl
  · split
    · right; right; exact ⟨_, rfl⟩
    · split
      · right; right; exact ⟨_, rfl⟩
      · right; right; exact ⟨_, rfl⟩
      · left; rfl

theorem verify_post_temporal_not_past (env : ChainEnv) (il : SignedInclusionList)
    (a b : Nat) : verify_post_temporal env il ≠ .error (.PastSlot a b) := by
  rcases verify_post_temporal_shape env il with hsh | hsh | ⟨e2, hsh⟩ <;>
    rw [hsh] <;> intro hcon <;> simp at hcon

theorem verify_post_temporal_not_future (env : ChainEnv) (il : SignedInclusionList)
    (a b : Nat) : verify_post_temporal env il ≠ .error (.FutureSlot a b) := by
  rcases verify_post_temporal_shape env il with hsh | hsh | ⟨e2, hsh⟩ <;>
    rw [hsh] <;> intro hcon <;> simp at hcon

/-- Claim C4: with a readable clock whose bounds satisfy
`earliest ≤ latest`, `verify` fails with `PastSlot` exactly when the message
slot is below `earliest`, fails with `FutureSlot` exactly when it is above
`latest`, and inside `[earliest, latest]` it proceeds to the later checks. -/
theorem verify_temporal_window (env : ChainEnv) (il : SignedInclusionList)
    (e l : Nat) (hp : env.now_with_past_tolerance = some e)
    (hf : env.now_with_future_tolerance = some l) (hel : e ≤ l) :
    (verify env il = .error (.PastSlot il.message.slot e) ↔ il.message.slot < e)
  ∧ (verify env il = .error (.FutureSlot il.message.slot l) ↔ l < il.message.slot)
  ∧ (e ≤ il.message.slot → il.message.slot ≤ l →
      verify env il = verify_post_temporal env il) := by
  rw [verify_eval env il e l hp hf]
  refine ⟨?_, ?_, ?_⟩
  · by_cases h1 : il.message.slot < e
    · simp [h1]
    · simp only [if_neg h1]
      by_cases h2 : il.message.slot > l
      · simp [h2]
        omega
      · simp only [if_neg h2]
        constructor
        · intro hcon
          exact absurd hcon (verify_post_temporal_not_past env il _ _)
        · intro hcon
          exact absurd hcon h1
  · by_cases h1 : il.message.slot < e
    · simp [h1]
      omega
    · simp only [if_neg h1]
      by_cases h2 : il.message.slot > l
      · simp [h2]
      · simp only [if_neg h2]
        constructor
        · intro hcon
          exact absurd hcon (verify_post_temporal_not_future env il _ _)
        · intro hcon
          exact absurd hcon h2
  · intro hge hle
    rw [if_neg (by omega), if_neg (by omega)]

/-- Clock and chain context used by the temporal witnesses: window `[2, 5]`. -/
def envW : ChainEnv :=
  { now_with_past_tolerance := some 2
    now_with_future_tolerance := some 5
    max_transactions_per_inclusion_list := 4
    epoch := .ok 0
    signing_root := fun _ _ => 0
    validator_pubkey := fun _ => .ok (some 1)
    sig_verify := fun _ _ _ => true }

def ilW : SignedInclusionList := ⟨⟨3, 3, 0, [1, 2]⟩, 10⟩

/-- Witness for C4 at slot 3 inside the window `[2, 5]`. -/
theorem verify_temporal_window_witness :
    (verify envW ilW = .error (.PastSlot ilW.message.slot 2) ↔ ilW.message.slot < 2)
  ∧ (verify envW ilW = .error (.FutureSlot ilW.message.slot 5) ↔ 5 < ilW.message.slot)
  ∧ (2 ≤ ilW.message.slot → ilW.message.slot ≤ 5 →
      verify envW ilW = verify_post_temporal envW ilW) :=
  verify_temporal_window envW ilW 2 5 rfl rfl (by decide)

/-! ## Size bound (C7) -/

/-- Claim C7 (amended): once the message slot passes the temporal window,
a transaction count above the protocol maximum makes `verify` fail with
`TooManyTransactions`, whatever the signature material is. -/
theorem too_many_transactions_after_temporal (env : ChainEnv)
    (il : SignedInclusionList) (e l : Nat)
    (hp : env.now_with_past_tolerance = some e)
    (hf : env.now_with_future_tolerance = some l)
    (hge : e ≤ il.message.slot) (hle : il.message.slot ≤ l)
    (hlen : il.message.transactions.length >
      env.max_transactions_per_inclusion_list) :
    verify env il = .error .TooManyTransactions := by
  rw [verify_eval env il e l hp hf, if_neg (by omega), if_neg (by omega),
    verify_post_temporal, if_pos hlen]

/-- Chain context for the C7 counterexample: window `[5, 10]`, at most one
transaction per list. -/
def envC7 : ChainEnv :=
  { now_with_past_tolerance := some 5
    now_with_future_tolerance := some 10
    max_transactions_per_inclusion_list := 1
    epoch := .ok 0
    signing_root := fun _ _ => 0
    validator_pubkey := fun _ => .ok (some 1)
    sig_verify := fun _ _ _ => true }

/-- A list at slot 0 carrying two transactions: over the maximum of 1. -/
def ilC7 : SignedInclusionList := ⟨⟨0, 3, 0, [1, 2]⟩, 10⟩

/-- Counterexample for C7 as stated: a list whose transaction count exceeds
the maximum but whose slot is below the window is rejected with `PastSlot`,
not `TooManyTransactions` — the size bound is not checked "regardless of the
message's slot value". -/
theorem too_many_transactions_not_slot_independent :
    ilC7.message.transactions.length > envC7.max_transactions_per_inclusion_list
  ∧ verify envC7 ilC7 = .error (.PastSlot 0 5)
  ∧ verify envC7 ilC7 ≠ .error .TooManyTransactions := by
  refine ⟨by decide, rfl, ?_⟩
  intro hcon
  rw [show verify envC7 ilC7 = .error (.PastSlot 0 5) from rfl] at hcon
  simp at hcon

/-- Witness for C7 (amended) at slot 7 inside `[5, 10]` with 2 > 1
transactions. -/
theorem too_many_transactions_after_temporal_witness :
    verify envC7 ⟨⟨7, 3, 0, [1, 2]⟩, 10⟩ = .error .TooManyTransactions :=
  too_many_transactions_after_temporal envC7 ⟨⟨7, 3, 0, [1, 2]⟩, 10⟩ 5 10
    rfl rfl (by decide) (by decide) (by decide)

/-! ## Discarded signature verification result (C1) -/

/-- Every temporal outcome of `verify`. -/
theorem verify_shape (env : ChainEnv) (il : SignedInclusionList) :
    verify env il = .ok il ∨
    verify env il = .error .TooManyTransactions ∨
    (∃ e2, verify env il = .error (.BeaconChainErr e2)) ∨
    (∃ a b, verify env il = .error (.PastSlot a b)) ∨
    (∃ a b, verify env il = .error (.FutureSlot a b)) := by
  cases hp : env.now_with_past_tolerance with
  | none =>
    right; right; left
    refine ⟨.UnableToReadSlot, ?_⟩
    unfold verify
    rw [hp]
  | some e =>
    cases hf : env.now_with_future_tolerance with
    | none =>
      by_cases h1 : il.message.slot < e
      · right; right; right; left
        refine ⟨il.message.slot, e, ?_⟩
        unfold verify
        rw [hp, hf]
        simp [h1]
      · right; right; left
        refine ⟨.UnableToReadSlot, ?_⟩
        unfold verify
        rw [hp, hf]
        simp [h1]
    | some l =>
      rw [verify_eval env il e l hp hf]
      by_cases h1 : il.message.slot < e
      · right; right; right; left
        exact ⟨_, _, by rw [if_pos h1]⟩
      · by_cases h2 : il.message.slot > l
        · right; right; right; right
          exact ⟨_, _, by rw [if_neg h1, if_pos h2]⟩
        · rw [if_neg h1, if_neg h2]
          rcases verify_post_temporal_shape env il with hsh | hsh | ⟨e2, hsh⟩
          · left; exact hsh
          · right; left; exact hsh
          · right; right; left; exact ⟨e2, hsh⟩

/-- A chain context whose signature verification rejects everything, while
every other check passes. -/
def envBad : ChainEnv :=
  { now_with_past_tolerance := some 0
    now_with_future_tolerance := some 100
    max_transactions_per_inclusion_list := 16
    epoch := .ok 0
    signing_root := fun _ _ => 0
    validator_pubkey := fun _ => .ok (some 7)
    sig_verify := fun _ _ _ => false }

def ilBad : SignedInclusionList := ⟨⟨5, 3, 0, [1, 2]⟩, 99⟩

/-- Claim C1 fails on the code: `verify` can never return `InvalidSignature`
(the boolean from `signature.verify` is dropped on the floor), and on a
concrete input whose slot, size and pubkey checks all pass but whose
signature verification returns `false`, `verify` still returns `Ok`. -/
theorem verify_discards_signature_result :
    (∀ (env : ChainEnv) (il : SignedInclusionList),
        verify env il ≠ .error .InvalidSignature)
  ∧ envBad.sig_verify ilBad.signature 7 (envBad.signing_root 0 ilBad.message) = false
  ∧ envBad.validator_pubkey ilBad.message.validator_index = .ok (some 7)
  ∧ ilBad.message.transactions.length ≤ envBad.max_transactions_per_inclusion_list
  ∧ verify envBad ilBad = .ok ilBad := by
  refine ⟨?_, rfl, rfl, by decide, rfl⟩
  intro env il
  rcases verify_shape env il with hsh | hsh | ⟨e2, hsh⟩ | ⟨a, b, hsh⟩ | ⟨a, b, hsh⟩ <;>
    rw [hsh] <;> intro hcon <;> simp at hcon

/-! ## Gradual publisher round counts (C9) -/

/-- Numeric shadow of `blobBatchesAux`: the number of rounds taken on a
list of the given length. -/
def blobRoundsAux : Nat → Nat → Nat → Nat
  | _, 0, _ => 0
  | 0, _, _ => 0
  | f + 1, n + 1, batch_size =>
    blobRoundsAux f (n + 1 - batch_size) (batch_size * BLOB_PUBLICATION_EXP_FACTOR) + 1

theorem blobRoundsAux_zero (f batch_size : Nat) : blobRoundsAux f 0 batch_size = 0 := by
  cases f <;> rfl

theorem blobBatchesAux_length {α : Type} :
    ∀ (f : Nat) (l : List α) (batch_size : Nat),
      (blobBatchesAux f l batch_size).length = blobRoundsAux f l.length batch_size := by
  intro f
  induction f with
  | zero =>
    intro l batch_size
    cases l with
    | nil => rfl
    | cons x xs => rfl
  | succ f2 ih =>
    intro l batch_size
    cases l with
    | nil => rfl
    | cons x xs =>
      show (blobBatchesAux f2 ((x :: xs).drop batch_size) _).length + 1 =
        blobRoundsAux (f2 + 1) (xs.length + 1) batch_size
      rw [ih]
      show blobRoundsAux f2 ((x :: xs).drop batch_size).length _ + 1 =
        blobRoundsAux f2 (xs.length + 1 - batch_size) _ + 1
      rw [List.length_drop, List.length_cons]

/-- Halving step: with batch size `2 * bs` the loop takes as many rounds on
`n` artifacts as it takes with batch size `bs` on `⌈n / 2⌉` artifacts. -/
theorem blobRoundsAux_halve :
    ∀ (n f f2 bs : Nat), n ≤ f → (n + 1) / 2 ≤ f2 → 1 ≤ bs →
      blobRoundsAux f n (bs * 2) = blobRoundsAux f2 ((n + 1) / 2) bs := by
  intro n
  induction n using Nat.strong_induction_on with
  | _ n ih =>
    intro f f2 bs hf hf2 hbs
    cases n with
    | zero =>
      rw [blobRoundsAux_zero]
      rw [show (0 + 1) / 2 = 0 by omega, blobRoundsAux_zero]
    | succ m =>
      cases f with
      | zero => omega
      | succ f1 =>
        cases f2 with
        | zero => omega
        | succ f3 =>
          obtain ⟨k, hk⟩ : ∃ k, (m + 1 + 1) / 2 = k + 1 := ⟨(m + 1 + 1) / 2 - 1, by omega⟩
          rw [hk]
          show blobRoundsAux f1 (m + 1 - bs * 2) (bs * 2 * BLOB_PUBLICATION_EXP_FACTOR) + 1 =
            blobRoundsAux f3 (k + 1 - bs) (bs * BLOB_PUBLICATION_EXP_FACTOR) + 1
          rw [show bs * BLOB_PUBLICATION_EXP_FACTOR = bs * 2 from rfl,
            show bs * 2 * BLOB_PUBLICATION_EXP_FACTOR = bs * 2 * 2 from rfl]
          have step := ih (m + 1 - bs * 2) (by omega) f1 f3 (bs * 2)
            (by omega) (by omega) (by omega)
          rw [step, show (m + 1 - bs * 2 + 1) / 2 = k + 1 - bs by omega]

/-- Starting at batch size 1, the loop takes `⌈log2 (n + 1)⌉` rounds. -/
theorem blobRoundsAux_clog :
    ∀ (n f : Nat), n ≤ f → blobRoundsAux f n 1 = Nat.clog 2 (n + 1) := by
  intro n
  induction n using Nat.strong_induction_on with
  | _ n ih =>
    intro f hf
    cases n with
    | zero =>
      rw [blobRoundsAux_zero, Nat.clog_one_right]
    | succ m =>
      cases f with
      | zero => omega
      | succ f1 =>
        show blobRoundsAux f1 (m + 1 - 1) (1 * BLOB_PUBLICATION_EXP_FACTOR) + 1 = _
        rw [show m + 1 - 1 = m from rfl,
          show 1 * BLOB_PUBLICATION_EXP_FACTOR = 1 * 2 from rfl]
        rw [blobRoundsAux_halve m f1 f1 1 (by omega) (by omega) (by omega)]
        rw [ih ((m + 1) / 2) (by omega) f1 (by omega)]
        rw [Nat.clog_of_two_le (by omega) (show 2 ≤ m + 1 + 1 by omega)]
        rw [show (m + 1 + 1 + 2 - 1) / 2 = (m + 1) / 2 + 1 by omega]

/-- Numeric count for `chunksAux`: `⌈len / batch_size⌉` rounds. -/
theorem chunksAux_length {α : Type} :
    ∀ (f : Nat) (l : List α) (batch_size : Nat), 1 ≤ batch_size → l.length ≤ f →
      (chunksAux f batch_size l).length = (l.length + batch_size - 1) / batch_size := by
  intro f
  induction f with
  | zero =>
    intro l batch_size hbs hf
    cases l with
    | nil =>
      show 0 = (0 + batch_size - 1) / batch_size
      rw [Nat.div_eq_of_lt (by omega)]
    | cons x xs => simp at hf
  | succ f2 ih =>
    intro l batch_size hbs hf
    cases l with
    | nil =>
      show 0 = (0 + batch_size - 1) / batch_size
      rw [Nat.div_eq_of_lt (by omega)]
    | cons x xs =>
      show (chunksAux f2 batch_size ((x :: xs).drop batch_size)).length + 1 = _
      rw [ih ((x :: xs).drop batch_size) batch_size hbs
        (by rw [List.length_drop]; simp at hf ⊢; omega)]
      rw [List.length_drop]
      show ((x :: xs).length - batch_size + batch_size - 1) / batch_size + 1 =
        ((x :: xs).length + batch_size - 1) / batch_size
      have hlen : 1 ≤ (x :: xs).length := by simp
      by_cases hcase : batch_size ≤ (x :: xs).length
      · rw [show (x :: xs).length - batch_size + batch_size - 1 =
          (x :: xs).length - 1 by omega]
        rw [show (x :: xs).length + batch_size - 1 =
          ((x :: xs).length - 1) + 1 * batch_size by omega]
        rw [Nat.add_mul_div_right _ _ (by omega : 0 < batch_size)]
      · rw [show (x :: xs).length - batch_size + batch_size - 1 =
          batch_size - 1 by simp at hcase ⊢; omega]
        rw [Nat.div_eq_of_lt (by omega)]
        rw [show (x :: xs).length + batch_size - 1 =
          ((x :: xs).length - 1) + 1 * batch_size by omega]
        rw [Nat.add_mul_div_right _ _ (by omega : 0 < batch_size)]
        rw [Nat.div_eq_of_lt (by simp at hcase ⊢; omega)]

/-- Claim C9 (amended): blob publication on `N` artifacts takes exactly
`⌈log2 (N + 1)⌉` rounds; data-column publication of `len` columns takes
`⌈len / batch_size⌉` rounds with the fixed
`batch_size = total_columns / batch_count` (positive, else the source
`chunks(0)` call panics); in particular the round count equals the
configured batch count whenever the published list holds all
`total_columns` columns and the batch count divides `total_columns`. -/
theorem gradual_publication_round_counts {α β : Type} (blobs : List α)
    (cols : List β) (number_of_columns blob_publication_batches : Nat)
    (hbs : 1 ≤ number_of_columns / blob_publication_batches) :
    (publish_blobs_gradually blobs).length = Nat.clog 2 (blobs.length + 1)
  ∧ (publish_data_columns_gradually cols number_of_columns
        blob_publication_batches).length =
      (cols.length + number_of_columns / blob_publication_batches - 1) /
        (number_of_columns / blob_publication_batches)
  ∧ (cols.length = number_of_columns →
      blob_publication_batches ∣ number_of_columns →
      (publish_data_columns_gradually cols number_of_columns
        blob_publication_batches).length = blob_publication_batches) := by
  refine ⟨?_, ?_, ?_⟩
  · rw [publish_blobs_gradually, blobBatchesAux_length, blobRoundsAux_clog _ _ le_rfl]
  · rw [publish_data_columns_gradually, chunksAux_length _ _ _ hbs le_rfl]
  · intro hlen hdvd
    rw [publish_data_columns_gradually, chunksAux_length _ _ _ hbs le_rfl, hlen]
    have hmul : number_of_columns / blob_publication_batches *
        blob_publication_batches = number_of_columns :=
      Nat.div_mul_cancel hdvd
    rw [show number_of_columns + number_of_columns / blob_publication_batches - 1 =
      (number_of_columns / blob_publication_batches - 1) +
        blob_publication_batches * (number_of_columns / blob_publication_batches) by
        rw [Nat.mul_comm]; omega]
    rw [Nat.add_mul_div_right _ _ (by omega : 0 < number_of_columns /
      blob_publication_batches)]
    rw [Nat.div_eq_of_lt (by omega)]
    omega

/-- Counterexample for C9 as stated: 10 columns published with
`number_of_columns = 10` and 4 configured batches take 5 rounds
(`batch_size = 10 / 4 = 2`), not 4. -/
theorem data_column_rounds_counterexample :
    (publish_data_columns_gradually [0, 1, 2, 3, 4, 5, 6, 7, 8, 9] 10 4).length = 5
  ∧ (5 : Nat) ≠ 4 :=
  ⟨rfl, by decide⟩

/-- Witness for C9 (amended): 3 blobs take `⌈log2 4⌉ = 2` rounds; a partial
run of 8 of 10 columns at batch size `10 / 4 = 2` takes `⌈8 / 2⌉ = 4`
rounds; a full run of 8 columns in 4 batches of `8 / 4 = 2` takes 4
rounds. -/
theorem gradual_publication_round_counts_witness :
    ((publish_blobs_gradually [0, 1, 2]).length =
      Nat.clog 2 ((0 :: 1 :: 2 :: ([] : List Nat)).length + 1)
    ∧ (publish_data_columns_gradually [0, 1, 2, 3, 4, 5, 6, 7] 10 4).length =
        ((0 :: 1 :: 2 :: 3 :: 4 :: 5 :: 6 :: 7 :: ([] : List Nat)).length +
          10 / 4 - 1) / (10 / 4))
  ∧ (publish_data_columns_gradually [0, 1, 2, 3, 4, 5, 6, 7] 8 4).length = 4 :=
  ⟨⟨(gradual_publication_round_counts [0, 1, 2] [0, 1, 2, 3, 4, 5, 6, 7] 10 4
        (by decide)).1,
    (gradual_publication_round_counts [0, 1, 2] [0, 1, 2, 3, 4, 5, 6, 7] 10 4
        (by decide)).2.1⟩,
    (gradual_publication_round_counts [0, 1, 2] [0, 1, 2, 3, 4, 5, 6, 7] 8 4
        (by decide)).2.2 rfl (by decide)⟩

/-! ## Work dispatch for RPC blobs (C10) -/

/-- Claim C10: when every entry of the fixed blob list is `none`,
`send_rpc_blobs` returns `Ok(())` and the channel is untouched; and whenever
the channel contents change, at least one blob was present. -/
theorem send_rpc_blobs_all_none_noop (ch : BoundedChannel) (block_root : Nat)
    (blobs : List (Option Nat)) :
    ((∀ b ∈ blobs, b = none) → send_rpc_blobs ch block_root blobs = (ch, .ok ()))
  ∧ (∀ ch2 r, send_rpc_blobs ch block_root blobs = (ch2, r) → ch2 ≠ ch →
      (blobs.filter Option.isSome).length ≠ 0) := by
  constructor
  · intro hall
    have hnone : blobs.filter Option.isSome = [] := by
      rw [List.filter_eq_nil_iff]
      intro b hb
      rw [hall b hb]
      simp
    rw [send_rpc_blobs, hnone]
    rfl
  · intro ch2 r hEq hne hlen
    rw [send_rpc_blobs, if_pos hlen] at hEq
    cases hEq
    exact hne rfl

/-- Witness for C10: a fixed list with two empty slots is dropped without
touching an empty channel of capacity 4. -/
theorem send_rpc_blobs_all_none_noop_witness :
    send_rpc_blobs ⟨4, []⟩ 0 [none, none] = (⟨4, []⟩, .ok ()) :=
  (send_rpc_blobs_all_none_noop ⟨4, []⟩ 0 [none, none]).1 (by decide)

end Lighthouse
